import Mathlib

/-!
Verification development for the ioc-server audio pipeline.

The definitions below are shallow embeddings of the Go source:
machine integers are modelled as `Nat`/`Int` with explicit wrap-around,
byte buffers as `List Nat`, and code that can panic at runtime
(out-of-range indexing, nil-pointer dereference, failed type assertion)
returns `Option` with `none` for the panic.
-/

namespace IocServer

/-! ## Constants (from the audio-input source file) -/

/-- The duration of a block of incoming audio in ms. -/
def BLOCK_DURATION_MS : Nat := 20

/-- The sampling frequency of the incoming audio. -/
def SAMPLING_FREQUENCY : Nat := 16000

/-- The number of samples per block (320). -/
def SAMPLES_PER_BLOCK : Nat := SAMPLING_FREQUENCY * BLOCK_DURATION_MS / 1000

/-- UNICAM parameter: samples per UNICAM block (16). -/
def UNICAM_SAMPLES_PER_BLOCK : Nat := SAMPLING_FREQUENCY / 1000

/-- UNICAM parameter: bits per coded sample. -/
def UNICAM_CODED_SAMPLE_SIZE_BITS : Nat := 8

/-- UNICAM parameter: bits per coded shift nibble. -/
def UNICAM_CODED_SHIFT_SIZE_BITS : Nat := 4

/-- URTP sync byte 0x5a. -/
def SYNC_BYTE : Nat := 0x5a

def URTP_TIMESTAMP_SIZE : Nat := 8
def URTP_SEQUENCE_NUMBER_SIZE : Nat := 2
def URTP_PAYLOAD_SIZE_SIZE : Nat := 2
def URTP_HEADER_SIZE : Nat := 14
def URTP_SAMPLE_SIZE : Nat := 2

/-- Maximum datagram size: header plus one block of 16-bit samples (654). -/
def URTP_DATAGRAM_MAX_SIZE : Nat := URTP_HEADER_SIZE + SAMPLES_PER_BLOCK * URTP_SAMPLE_SIZE

/-- Two audio coding schemes: 0 = PCM, 1 = UNICAM. -/
def MAX_NUM_AUDIO_CODING_SCHEMES : Nat := 2

/-- Guard against silly sequence number gaps (from the processing source file). -/
def MAX_GAP_FILL_MILLISECONDS : Nat := 500

/-- The age (in nanoseconds, i.e. Go `time.Duration` units) at which an MP3
file should no longer be used: `time.Minute`. -/
def MP3_MAX_AGE : Nat := 60 * 1000000000

/-! ## int16 arithmetic helpers -/

/-- Wrap an integer to the signed 16-bit range, the effect of Go arithmetic
on an `int16`. -/
def toInt16 (v : Int) : Int := (v + 32768) % 65536 - 32768

/-- Go `byte(v)` for a signed integer `v`: the low 8 bits. -/
def byteOfInt (v : Int) : Nat := (v % 256).toNat

/-! ## URTP codec: PCM -/

/-- Embedding of `decodePcm`: consume big-endian byte pairs, each mapped
through `(int16(b0) << 8) + int16(b1)` with `int16` wrap-around; a trailing
odd byte is ignored (`make([]int16, len/2)`). -/
def decodePcm : List Nat → List Int
  | b0 :: b1 :: rest => toInt16 (toInt16 ((b0 : Int) * 256) + (b1 : Int)) :: decodePcm rest
  | _ => []

/-- Modelled from the spec: `encodePCM_BE` is not in the server source (it is
the client side of the round-trip law); following the spec words, each int16
sample becomes two bytes, most significant first. -/
def encodePcmBE (samples : List Int) : List Nat :=
  (samples.map (fun s => [byteOfInt (s / 256), byteOfInt s])).flatten

/-! ## URTP codec: UNICAM -/

/-- Embedding of the block-counting loop of `decodeUnicam`:
`for x := 0; x < bits; x += 132 { numBlocks++ }` where
132 = `UNICAM_SAMPLES_PER_BLOCK * UNICAM_CODED_SAMPLE_SIZE_BITS +
UNICAM_CODED_SHIFT_SIZE_BITS`. The loop body runs once for every started
132-bit stride, i.e. `numBlocks` is `bits / 132` rounded up. -/
def strideCount (bits : Nat) : Nat := (bits + 131) / 132

/-- One UNICAM sample: `int16(byte)`, sign-extended by filling bits 8..15
when bit 7 is set (which equals subtracting 256), then shifted left by the
block shift with `int16` wrap-around. -/
def unicamExpand (b : Nat) (shift : Nat) : Int :=
  toInt16 ((if b &&& 128 ≠ 0 then (b : Int) - 256 else (b : Int)) * 2 ^ shift)

/-- Embedding of the block-decoding loop of `decodeUnicam`, one fuel unit per
counted block. Each block reads 16 coded sample bytes at `sourceIndex`; an
even block then reads the shift byte (high nibble), an odd block reuses the
previous shift byte (low nibble). An out-of-range payload read is the Go
runtime panic, modelled as `none`. -/
def decodeUnicamBlocks (payload : List Nat) :
    Nat → Nat → Nat → Nat → Option (List Int)
  | 0, _, _, _ => some []
  | fuel + 1, blockCount, sourceIndex, shiftValues =>
    if sourceIndex + UNICAM_SAMPLES_PER_BLOCK ≤ payload.length then
      let raw := (payload.drop sourceIndex).take UNICAM_SAMPLES_PER_BLOCK
      if blockCount % 2 = 0 then
        match payload[sourceIndex + UNICAM_SAMPLES_PER_BLOCK]? with
        | none => none
        | some sv =>
          match decodeUnicamBlocks payload fuel (blockCount + 1)
              (sourceIndex + UNICAM_SAMPLES_PER_BLOCK + 1) sv with
          | none => none
          | some rest => some (raw.map (fun b => unicamExpand b (sv >>> 4)) ++ rest)
      else
        match decodeUnicamBlocks payload fuel (blockCount + 1)
            (sourceIndex + UNICAM_SAMPLES_PER_BLOCK) shiftValues with
        | none => none
        | some rest => some (raw.map (fun b => unicamExpand b (shiftValues &&& 15)) ++ rest)
    else none

/-- Embedding of `decodeUnicam`: count blocks over the payload viewed as a
bit stream, then decode that many blocks. -/
def decodeUnicam (payload : List Nat) : Option (List Int) :=
  decodeUnicamBlocks payload (strideCount (payload.length * 8)) 0 0 0

/-! ## URTP datagrams and the audio processor -/

/-- A URTP datagram as held by the server; `Audio` is a `*[]int16` in Go and
may be nil (`none`) when the payload was absent or the coding unknown. -/
structure UrtpDatagram where
  SequenceNumber : Nat
  Timestamp : Nat
  Audio : Option (List Int)
deriving DecidableEq

/-- The two little-endian bytes `byte(v >> (8*x))`, `x = 0, 1`, that the
processor writes to the PCM buffer for one int16 sample. -/
def int16LeBytes (v : Int) : List Nat :=
  [byteOfInt v, byteOfInt (v / 256)]

/-- The byte image of a sample list in the PCM buffer (little-endian). -/
def samplesLeBytes (l : List Int) : List Nat :=
  (l.map int16LeBytes).flatten

/-- Embedding of `handleGap`: the bytes appended to the PCM buffer for a gap
of `gap` samples. Below the silly-gap bound the zero-initialised fill of
`gap * URTP_SAMPLE_SIZE` bytes is overwritten pairwise with the last sample
of the previous datagram when one exists and has audio; `len(*prev.Audio)`
dereferences a nil pointer (panic, modelled `none`) when the previous
datagram carries no audio. At or above the bound nothing is written. -/
def handleGapBytes (gap : Nat) (previousDatagram : Option UrtpDatagram) :
    Option (List Nat) :=
  if gap < SAMPLING_FREQUENCY * MAX_GAP_FILL_MILLISECONDS / 1000 then
    match previousDatagram with
    | none => some (List.replicate (gap * URTP_SAMPLE_SIZE) 0)
    | some prev =>
      match prev.Audio with
      | none => none
      | some audio =>
        if 0 < audio.length then
          some ((List.replicate gap (int16LeBytes (audio.getLastD 0))).flatten)
        else
          some (List.replicate (gap * URTP_SAMPLE_SIZE) 0)
  else some []

/-- Embedding of `processDatagram`: the bytes appended to the PCM buffer for
one datagram given the previously processed datagram. Sequence arithmetic is
uint16 (wraps at 2^16): a gap of `uint16(seq - prevSeq) * SAMPLES_PER_BLOCK`
samples is filled when the sequence number is not the successor; then the
datagram audio is appended little-endian; a short or missing block is
topped up by a further gap. -/
def processDatagramBytes (datagram : UrtpDatagram)
    (previousDatagram : Option UrtpDatagram) : Option (List Nat) :=
  let gapBytes : Option (List Nat) :=
    match previousDatagram with
    | some prev =>
      if datagram.SequenceNumber ≠ (prev.SequenceNumber + 1) % 65536 then
        handleGapBytes
          (((datagram.SequenceNumber + 65536 - prev.SequenceNumber) % 65536)
            * SAMPLES_PER_BLOCK) previousDatagram
      else some []
    | none => some []
  match gapBytes with
  | none => none
  | some g =>
    match datagram.Audio with
    | some audio =>
      if audio.length < SAMPLES_PER_BLOCK then
        match handleGapBytes (SAMPLES_PER_BLOCK - audio.length) previousDatagram with
        | none => none
        | some g2 => some (g ++ samplesLeBytes audio ++ g2)
      else some (g ++ samplesLeBytes audio)
    | none =>
      match handleGapBytes SAMPLES_PER_BLOCK previousDatagram with
      | none => none
      | some g2 => some (g ++ g2)

/-! ## Ingest: UDP header verification -/

/-- The big-endian payload-length field at offsets 12 and 13
(`URTP_NUM_BYTES_AUDIO_OFFSET`). -/
def payloadLenField (packet : List Nat) : Nat :=
  packet.getD 12 0 * 256 + packet.getD 13 0

/-- Embedding of `verifyUrtpHeader`: at least a header's worth of bytes,
sync byte 0x5a, coding scheme below `MAX_NUM_AUDIO_CODING_SCHEMES`, and a
payload-length field of at most `URTP_DATAGRAM_MAX_SIZE`. -/
def verifyUrtpHeader (header : List Nat) : Bool :=
  if URTP_HEADER_SIZE ≤ header.length then
    if header.getD 0 0 = SYNC_BYTE then
      if header.getD 1 0 < MAX_NUM_AUDIO_CODING_SCHEMES then
        decide (payloadLenField header ≤ URTP_DATAGRAM_MAX_SIZE)
      else false
    else false
  else false

/-- Embedding of the UDP read loop acceptance test: a packet reaches
`handleUrtpDatagram` (and hence the processor channel) when it is at least
`URTP_HEADER_SIZE` bytes and its first 14 bytes verify. -/
def udpAccepts (packet : List Nat) : Bool :=
  decide (URTP_HEADER_SIZE ≤ packet.length) &&
    verifyUrtpHeader (packet.take URTP_HEADER_SIZE)

/-! ## TCP reassembly state machine -/

/-- The persistent (package-global) reassembly state of `handleUrtpStream`:
the `urtpReassemblyState` number (0 = waiting sync .. 5 = waiting payload),
`urtpByteCount`, `urtpPayloadSize`, the `urtpDatagram` byte buffer, and the
list of datagrams handed to `handleUrtpDatagram` so far. The `header`
buffer is deliberately not here: it is a local variable of each
`handleUrtpStream` call. -/
structure ReasmState where
  state : Nat
  byteCount : Nat
  payloadSize : Nat
  datagramBuf : List Nat
  emitted : List (List Nat)
deriving DecidableEq

/-- The reassembly state at program start. -/
def initReasmState : ReasmState := ⟨0, 0, 0, [], []⟩

/-- One iteration of the `handleUrtpStream` byte loop, carrying the
call-local `header` buffer alongside the global state. The bulk payload
read (`tcpBuffer.Next`) consumes the same in-call bytes the later loop
iterations would, so it is modelled by repeated single-byte iterations of
the waiting-payload case. -/
def callStep (sh : ReasmState × List Nat) (item : Nat) : ReasmState × List Nat :=
  let s := sh.1
  let header := sh.2
  match s.state with
  | 0 => -- URTP_STATE_WAITING_SYNC
    if item = SYNC_BYTE then ({ s with state := 1 }, header ++ [item])
    else ({ s with state := 0 }, [])
  | 1 => -- URTP_STATE_WAITING_AUDIO_CODING
    if item < MAX_NUM_AUDIO_CODING_SCHEMES then ({ s with state := 2 }, header ++ [item])
    else ({ s with state := 0 }, [])
  | 2 => -- URTP_STATE_WAITING_SEQUENCE_NUMBER
    if URTP_SEQUENCE_NUMBER_SIZE ≤ s.byteCount + 1 then
      ({ s with byteCount := 0, state := 3 }, header ++ [item])
    else ({ s with byteCount := s.byteCount + 1 }, header ++ [item])
  | 3 => -- URTP_STATE_WAITING_TIMESTAMP
    if URTP_TIMESTAMP_SIZE ≤ s.byteCount + 1 then
      ({ s with byteCount := 0, state := 4 }, header ++ [item])
    else ({ s with byteCount := s.byteCount + 1 }, header ++ [item])
  | 4 => -- URTP_STATE_WAITING_PAYLOAD_SIZE
    let ps := s.payloadSize + item <<< (8 * (URTP_PAYLOAD_SIZE_SIZE - s.byteCount - 1))
    if URTP_PAYLOAD_SIZE_SIZE ≤ s.byteCount + 1 then
      if ps ≤ URTP_DATAGRAM_MAX_SIZE then
        if ps = 0 then
          -- header bytes are written to the datagram buffer, but the
          -- machine resets without emitting anything
          ({ s with byteCount := 0, payloadSize := ps, state := 0
                    datagramBuf := s.datagramBuf ++ header ++ [item] }, [])
        else
          ({ s with byteCount := 0, payloadSize := ps, state := 5
                    datagramBuf := s.datagramBuf ++ header ++ [item] }, header ++ [item])
      else
        ({ s with byteCount := 0, payloadSize := 0, state := 0 }, [])
    else ({ s with byteCount := s.byteCount + 1, payloadSize := ps }, header ++ [item])
  | 5 => -- URTP_STATE_WAITING_PAYLOAD
    let buf := s.datagramBuf ++ [item]
    let ps := if 0 < s.payloadSize then s.payloadSize - 1 else s.payloadSize
    if ps = 0 then
      ({ s with payloadSize := 0, datagramBuf := []
                emitted := s.emitted ++ [buf], state := 0 }, [])
    else ({ s with payloadSize := ps, datagramBuf := buf }, header)
  | _ =>
    ({ s with byteCount := 0, payloadSize := 0, state := 0 }, [])

/-- Embedding of one `handleUrtpStream(data)` call: the bytes are appended
to the (empty) `tcpBuffer` and then fully drained through the byte loop,
with a fresh local `header` buffer that is discarded when the call
returns. -/
def handleUrtpStreamCall (s : ReasmState) (data : List Nat) : ReasmState :=
  (data.foldl callStep (s, [])).1

/-- A sequence of `handleUrtpStream` calls, e.g. one per TCP read. -/
def feedCalls (chunks : List (List Nat)) : ReasmState :=
  chunks.foldl handleUrtpStreamCall initReasmState

/-- Big-endian 2-byte encoding of a 16-bit value. -/
def be2 (v : Nat) : List Nat := [v / 256 % 256, v % 256]

/-- Big-endian 8-byte encoding of a 64-bit value. -/
def be8 (v : Nat) : List Nat :=
  [v / 2 ^ 56 % 256, v / 2 ^ 48 % 256, v / 2 ^ 40 % 256, v / 2 ^ 32 % 256,
   v / 2 ^ 24 % 256, v / 2 ^ 16 % 256, v / 2 ^ 8 % 256, v % 256]

/-- The 14 header bytes of a URTP frame with the given coding scheme,
sequence number, timestamp, and payload length. -/
def urtpHeaderBytes (coding seq ts payloadLen : Nat) : List Nat :=
  SYNC_BYTE :: coding :: (be2 seq ++ be8 ts ++ be2 payloadLen)

/-- The full byte encoding of a URTP frame. -/
def frameBytes (coding seq ts : Nat) (payload : List Nat) : List Nat :=
  urtpHeaderBytes coding seq ts payload.length ++ payload

/-! ## Publisher: MP3 segment list, playlist and housekeeping -/

/-- Description of an MP3 audio file, as published on the media-control
channel; times and durations in nanoseconds (Go `time` units). -/
structure Mp3AudioFile where
  fileName : String
  title : String
  timestamp : Nat
  duration : Nat
  usable : Bool
deriving DecidableEq

/-- Embedding of the housekeeping loop body of `operateAudioOut` over the
MP3 file list. The first branch (`usable` and older than `MP3_MAX_AGE`)
only logs and rewrites the index file — the statement that would set
`usable` to false is commented out in the source, so the record is not
changed. The second branch deletes the file of a non-usable record; on
success (`delOk`) the element is removed from the list, after which
`newElement.Next()` on the removed element is nil and the loop ends. -/
def housekeepTick (now : Nat) (delOk : Mp3AudioFile → Bool) :
    List Mp3AudioFile → List Mp3AudioFile
  | [] => []
  | f :: rest =>
    if ¬f.usable ∧ delOk f then rest
    else f :: housekeepTick now delOk rest

/-- The number of usable segments, `numSegments` in `updateIndexFile`. -/
def usableCount (l : List Mp3AudioFile) : Nat :=
  (l.filter (fun f => f.usable)).length

/-- Embedding of the `#EXT-X-MEDIA-SEQUENCE` value written by
`updateIndexFile`: `numSegments - 1`, written only when `numSegments > 0`
(`none` when the dynamic header is omitted). -/
def mediaSequenceWritten (l : List Mp3AudioFile) : Option Nat :=
  if 0 < usableCount l then some (usableCount l - 1) else none

/-- Events that mutate the publisher's MP3 file list: a segment publish on
the media-control channel (PushBack, then `updateIndexFile`), or one
housekeeping tick at time `now` whose file deletions succeed per `delOk`. -/
inductive MediaEvent where
  | publish (f : Mp3AudioFile)
  | housekeep (now : Nat) (delOk : Mp3AudioFile → Bool)

/-- Apply one event to the MP3 file list. -/
def applyMediaEvent (l : List Mp3AudioFile) : MediaEvent → List Mp3AudioFile
  | .publish f => l ++ [f]
  | .housekeep now delOk => housekeepTick now delOk l

/-! ## Publisher: clearMp3FileList -/

/-- An element of a `container/list` list, which stores `interface{}`
values: the processor pushes `*UrtpDatagram` onto `newDatagramList`, the
publisher pushes `*Mp3AudioFile` onto `mp3FileList`. -/
inductive ListValue where
  | datagramValue (d : UrtpDatagram)
  | mp3Value (f : Mp3AudioFile)
deriving DecidableEq

/-- The state `clearMp3FileList` operates on: the processor's
`newDatagramList` (which the function traverses) and the publisher's
`mp3FileList` (which it was evidently meant to traverse). -/
structure OutState where
  newDatagramList : List ListValue
  mp3FileList : List Mp3AudioFile
deriving DecidableEq

/-- Embedding of `clearMp3FileList`: iterate over `newDatagramList`,
asserting each element to `*Mp3AudioFile`. An empty list does nothing. A
leading datagram element makes the type assertion
`newElement.Value.(*Mp3AudioFile)` panic (`none`). If the assertion did
succeed, the file would be deleted and the element removed, after which
`newElement.Next()` is nil and the loop would end. Returns the new state
and the deleted file names. -/
def clearMp3FileList (st : OutState) : Option (OutState × List String) :=
  match st.newDatagramList with
  | [] => some (st, [])
  | .mp3Value f :: rest =>
    some ({ st with newDatagramList := rest }, [f.fileName])
  | .datagramValue _ :: _ => none

/-! ## Auxiliary definitions used in theorem statements -/

/-- The last sample of the previous datagram, zero when there is no
previous datagram or it carries no samples. -/
def prevLastSample : Option UrtpDatagram → Int
  | none => 0
  | some p =>
    match p.Audio with
    | some l => l.getLastD 0
    | none => 0

/-! ## Concrete inputs -/

/-- The spec's UNICAM single-block example payload: sixteen coded samples
equal to 1 followed by the shift byte 0x20. -/
def unicamOneBlockPayload : List Nat := List.replicate 16 1 ++ [0x20]

/-- A 14-byte UDP packet whose payload-length field is 650. -/
def pkt650 : List Nat := [0x5a, 0, 0, 0, 0, 0, 0, 0, 0, 0, 0, 0, 2, 138]

/-- A minimal valid URTP frame: coding 0, seq 0, ts 0, one payload byte. -/
def frame0 : List Nat := frameBytes 0 0 0 [0]

/-- A previously processed datagram with sequence number 1 whose last (and
only) sample is 7. -/
def frameOne : UrtpDatagram := ⟨1, 0, some [7]⟩

/-- A full-block datagram with sequence number 3 and 320 samples equal
to 2. -/
def frameThree : UrtpDatagram := ⟨3, 0, some (List.replicate 320 2)⟩

/-- A datagram whose audio pointer is nil. -/
def nilAudioDatagram : UrtpDatagram := ⟨0, 0, none⟩

/-- A published segment received at time 0. -/
def segA : Mp3AudioFile := ⟨"a.ts", "Internet of Chuffs", 0, 15000000000, true⟩

/-- A published segment received at time 5 s. -/
def segB : Mp3AudioFile := ⟨"b.ts", "Internet of Chuffs", 5000000000, 15000000000, true⟩

/-! ## Helper lemmas -/

/-- A zero fill of `n * 2` bytes is the flattening of `n` zero sample
pairs. -/
theorem zero_fill_eq_flatten :
    ∀ n : Nat, List.replicate (n * URTP_SAMPLE_SIZE) (0 : Nat)
      = (List.replicate n (int16LeBytes 0)).flatten := by
  intro n
  induction n with
  | zero => rfl
  | succ m ih =>
    have h2 : (m + 1) * URTP_SAMPLE_SIZE = 2 + m * URTP_SAMPLE_SIZE := by
      simp [URTP_SAMPLE_SIZE]; omega
    rw [List.replicate_succ, List.flatten_cons, h2, List.replicate_add, ih]
    rfl

/-- The byte image of `n` copies of one sample is `n` copies of its byte
pair. -/
theorem samplesLeBytes_replicate (n : Nat) (v : Int) :
    samplesLeBytes (List.replicate n v) = (List.replicate n (int16LeBytes v)).flatten := by
  simp [samplesLeBytes, List.map_replicate]

/-- One PCM sample survives the encode/decode round trip. -/
theorem decode_encode_sample (s : Int) (h1 : -32768 ≤ s) (h2 : s ≤ 32767) :
    toInt16 (toInt16 ((byteOfInt (s / 256) : Int) * 256) + (byteOfInt s : Int)) = s := by
  unfold toInt16 byteOfInt
  have e1 : (0 : Int) ≤ s / 256 % 256 := Int.emod_nonneg _ (by norm_num)
  have e2 : (0 : Int) ≤ s % 256 := Int.emod_nonneg _ (by norm_num)
  rw [Int.toNat_of_nonneg e1, Int.toNat_of_nonneg e2]
  omega

/-- Flattening `n` copies of a list has `n` times its length. -/
theorem length_flatten_replicate (n : Nat) (l : List Nat) :
    ((List.replicate n l).flatten).length = n * l.length := by
  induction n with
  | zero => simp
  | succ m ih =>
    rw [List.replicate_succ, List.flatten_cons, List.length_append, ih]
    ring

/-- The PCM byte image is twice as long as the sample list. -/
theorem samplesLeBytes_length (l : List Int) : (samplesLeBytes l).length = l.length * 2 := by
  induction l with
  | nil => rfl
  | cons v rest ih =>
    unfold samplesLeBytes at ih ⊢
    rw [List.map_cons, List.flatten_cons, List.length_append, ih]
    simp [int16LeBytes]
    omega

/-- The output of `decodePcm` has half as many entries as the input has
bytes, rounded down. -/
theorem decodePcm_length : ∀ bs : List Nat, (decodePcm bs).length = bs.length / 2
  | [] => by simp [decodePcm]
  | [b] => by simp [decodePcm]
  | b0 :: b1 :: rest => by
    simp only [decodePcm, List.length_cons]
    rw [decodePcm_length rest]
    omega

/-- Reading inside the taken prefix is reading the original list. -/
theorem getD_take_eq (l : List Nat) (n i : Nat) (h : i < n) :
    (l.take n).getD i 0 = l.getD i 0 := by
  induction l generalizing n i with
  | nil => simp
  | cons a t ih =>
    cases n with
    | zero => omega
    | succ m =>
      cases i with
      | zero => simp
      | succ j =>
        simp only [List.take_succ_cons, List.getD_cons_succ]
        exact ih m j (by omega)

/-- Housekeeping never changes the number of usable segments: the branch
that would retire a stale segment does not modify it, and only non-usable
segments are removed. -/
theorem usableCount_housekeepTick (now : Nat) (delOk : Mp3AudioFile → Bool) :
    ∀ l : List Mp3AudioFile, usableCount (housekeepTick now delOk l) = usableCount l := by
  intro l
  induction l with
  | nil => rfl
  | cons f rest ih =>
    unfold housekeepTick
    by_cases h : ¬f.usable = true ∧ delOk f = true
    · rw [if_pos h]
      have hu : f.usable = false := by
        rcases h with ⟨h1, _⟩
        exact Bool.not_eq_true f.usable |>.mp h1
      unfold usableCount
      rw [List.filter_cons, hu]
      simp
    · rw [if_neg h]
      unfold usableCount at ih ⊢
      rw [List.filter_cons, List.filter_cons]
      cases hu : f.usable <;> simp [hu, ih]

/-- One publish or housekeeping event never lowers the usable count. -/
theorem usableCount_applyMediaEvent (l : List Mp3AudioFile) (e : MediaEvent) :
    usableCount l ≤ usableCount (applyMediaEvent l e) := by
  cases e with
  | publish f =>
    unfold applyMediaEvent usableCount
    rw [List.filter_append, List.length_append]
    omega
  | housekeep now delOk =>
    unfold applyMediaEvent
    rw [usableCount_housekeepTick]

/-- The usable count is monotone over any event sequence. -/
theorem usableCount_foldl (l : List Mp3AudioFile) (evs : List MediaEvent) :
    usableCount l ≤ usableCount (List.foldl applyMediaEvent l evs) := by
  induction evs generalizing l with
  | nil => simp
  | cons e rest ih =>
    rw [List.foldl_cons]
    exact Nat.le_trans (usableCount_applyMediaEvent l e) (ih (applyMediaEvent l e))

/-- Draining a complete, non-empty payload from the waiting-payload state
appends the collected datagram to the emitted list and resets the
machine. -/
theorem reasm_payload_phase :
    ∀ (p : List Nat) (st : ReasmState) (header : List Nat),
      st.state = 5 → st.payloadSize = p.length → p ≠ [] →
      List.foldl callStep (st, header) p
        = (⟨0, st.byteCount, 0, [], st.emitted ++ [st.datagramBuf ++ p]⟩, []) := by
  intro p
  induction p with
  | nil => intro st header _ _ h3; exact absurd rfl h3
  | cons b rest ih =>
    intro st header h1 h2 _
    obtain ⟨s1, s2, s3, s4, s5⟩ := st
    simp only at h1 h2
    subst h1
    rw [List.foldl_cons]
    by_cases hr : rest = []
    · subst hr
      simp only [List.length_cons, List.length_nil] at h2
      simp [callStep, h2]
    · have hlen : 0 < rest.length := List.length_pos.mpr hr
      have hstep : callStep (⟨5, s2, s3, s4, s5⟩, header) b
          = (⟨5, s2, rest.length, s4 ++ [b], s5⟩, header) := by
        simp only [callStep, h2, List.length_cons]
        have hpos : 0 < rest.length + 1 := by omega
        rw [if_pos hpos]
        have : ¬(rest.length + 1 - 1 = 0) := by omega
        simp [this, hr]
      rw [hstep, ih ⟨5, s2, rest.length, s4 ++ [b], s5⟩ header rfl rfl hr]
      simp

/-- Feeding the 14 header bytes of a valid frame with non-zero payload
length into a freshly reset machine, within one call, collects the whole
header and arrives in the waiting-payload state. -/
theorem reasm_header_phase (coding seq ts n : Nat)
    (hc : coding < MAX_NUM_AUDIO_CODING_SCHEMES)
    (hn : n ≤ URTP_DATAGRAM_MAX_SIZE) (hn0 : ¬n = 0) :
    List.foldl callStep (initReasmState, []) (urtpHeaderBytes coding seq ts n)
      = (⟨5, 0, n, urtpHeaderBytes coding seq ts n, []⟩, urtpHeaderBytes coding seq ts n) := by
  have hmax : URTP_DATAGRAM_MAX_SIZE = 654 := rfl
  have hn654 : n ≤ 654 := hmax ▸ hn
  have hc2 : coding < 2 := hc
  have hps : n / 256 % 256 * 256 + n % 256 = n := by omega
  simp [urtpHeaderBytes, be2, be8, callStep, initReasmState, SYNC_BYTE,
    MAX_NUM_AUDIO_CODING_SCHEMES, URTP_SEQUENCE_NUMBER_SIZE, URTP_TIMESTAMP_SIZE,
    URTP_PAYLOAD_SIZE_SIZE, URTP_DATAGRAM_MAX_SIZE, URTP_HEADER_SIZE,
    SAMPLES_PER_BLOCK, SAMPLING_FREQUENCY, BLOCK_DURATION_MS, URTP_SAMPLE_SIZE,
    Nat.shiftLeft_eq, hps, hc2, hn654, hn0]

/-- Processing a frame whose sequence number is two above the previous
frame's writes a fill of `2 * SAMPLES_PER_BLOCK` samples, each the last
sample of the previous frame, followed by the frame's own samples. -/
theorem processTwoGapEq (s ts pts : Nat) (hs : s + 2 < 65536)
    (prevAudio : List Int) (hp : prevAudio ≠ [])
    (audio : List Int) (ha : audio.length = SAMPLES_PER_BLOCK) :
    processDatagramBytes ⟨s + 2, ts, some audio⟩ (some ⟨s, pts, some prevAudio⟩)
      = some ((List.replicate (2 * SAMPLES_PER_BLOCK)
          (int16LeBytes (prevAudio.getLastD 0))).flatten ++ samplesLeBytes audio) := by
  have hne : s + 2 ≠ (s + 1) % 65536 := by
    rw [Nat.mod_eq_of_lt (by omega)]; omega
  have hgap : (s + 2 + 65536 - s) % 65536 = 2 := by omega
  have hlt : ¬(audio.length < SAMPLES_PER_BLOCK) := by omega
  have hplen : 0 < prevAudio.length := List.length_pos.mpr hp
  have hsmall : 2 * SAMPLES_PER_BLOCK <
      SAMPLING_FREQUENCY * MAX_GAP_FILL_MILLISECONDS / 1000 := by decide
  simp only [processDatagramBytes]
  rw [if_pos hne, hgap]
  simp only [handleGapBytes]
  rw [if_pos hsmall, if_pos hplen]
  simp [hlt]

/-- Processing a frame whose sequence number is exactly the uint16
successor of the previous frame's writes no gap fill: only the frame's own
samples (a full block) are appended. -/
theorem processInOrderEq (d p : UrtpDatagram) (audio : List Int)
    (hd : d.Audio = some audio)
    (hseq : d.SequenceNumber = (p.SequenceNumber + 1) % 65536)
    (ha : audio.length = SAMPLES_PER_BLOCK) :
    processDatagramBytes d (some p) = some (samplesLeBytes audio) := by
  have hlt : ¬(audio.length < SAMPLES_PER_BLOCK) := by omega
  simp [processDatagramBytes, hseq, hd, hlt]

/-! ## Claims -/

/-- Claim C1 (code bug): `decodeUnicam` does not ignore a trailing partial
block. Its block-counting loop rounds up, so the 17-byte single-block
payload (136 bits) is counted as 2 blocks, and decoding the phantom second
block reads `payload[17]` past the end of the 17-byte payload — a runtime
index-out-of-range panic (modelled as `none`) — instead of returning 16
samples equal to 0x0004. -/
theorem decodeUnicam_c1_crash :
    decodeUnicam unicamOneBlockPayload = none ∧
    strideCount (unicamOneBlockPayload.length * 8) = 2 := by decide

/-- Claim C2 (code bug): after a housekeeping tick at t = 180 s, a segment
received at t = 0 (age 3 minutes, past both the code's `MP3_MAX_AGE` of
1 minute and the claimed 2-minute bound) is still `usable = true` and still
in the list: the assignment that would retire it is commented out in the
source, so the claimed invariant `usable → age ≤ USABLE_AGE` fails. -/
theorem housekeeping_c2_stale_usable :
    housekeepTick 180000000000 (fun _ => true) [segA] = [segA] ∧
    segA.usable = true ∧
    MP3_MAX_AGE < 180000000000 - segA.timestamp ∧
    2 * 60 * 1000000000 < 180000000000 - segA.timestamp := by decide

/-- Claim C3 counterexample: publishing two segments moves the written
media-sequence value from 0 to 1 although the set of non-usable segments is
empty throughout — the value is incremented without any segment becoming
unusable, refuting "incremented exactly once per segment that becomes
unusable". -/
theorem media_sequence_c3_cex :
    mediaSequenceWritten (List.foldl applyMediaEvent [] [MediaEvent.publish segA])
      = some 0 ∧
    mediaSequenceWritten (List.foldl applyMediaEvent []
      [MediaEvent.publish segA, MediaEvent.publish segB]) = some 1 ∧
    (List.foldl applyMediaEvent [] [MediaEvent.publish segA, MediaEvent.publish segB]).filter
      (fun f => !f.usable) = [] := by decide

/-- Claim C3 as amended: the media-sequence value written into the playlist
is the number of currently usable segments minus one; it is non-decreasing
over any sequence of publish and housekeeping events, and it increments
once per usable segment published (not per segment retired). -/
theorem media_sequence_c3_monotone :
    (∀ (l : List Mp3AudioFile) (evs : List MediaEvent) (v w : Nat),
        mediaSequenceWritten l = some v →
        mediaSequenceWritten (List.foldl applyMediaEvent l evs) = some w → v ≤ w) ∧
    (∀ (l : List Mp3AudioFile) (f : Mp3AudioFile), f.usable = true →
        mediaSequenceWritten (applyMediaEvent l (MediaEvent.publish f))
          = some (usableCount l)) := by
  constructor
  · intro l evs v w hv hw
    have hcount := usableCount_foldl l evs
    simp only [mediaSequenceWritten] at hv hw
    split at hv
    · split at hw
      · simp_all
        omega
      · simp_all
    · simp_all
  · intro l f hf
    unfold mediaSequenceWritten applyMediaEvent usableCount
    rw [List.filter_append]
    simp [hf]

/-- Claim C3 witness: concrete instantiation of the amended theorem. -/
theorem media_sequence_c3_monotone_witness :
    ((0 : Nat) ≤ 1) ∧
    mediaSequenceWritten (applyMediaEvent [segA] (MediaEvent.publish segB))
      = some (usableCount [segA]) :=
  ⟨media_sequence_c3_monotone.1 [segA] [MediaEvent.publish segB] 0 1 (by decide) (by decide),
   media_sequence_c3_monotone.2 [segA] segB (by decide)⟩

/-- Claim C4 counterexample: processing frame seq=3 after frame seq=1
writes 1920 bytes (640 fill samples plus the 320 frame samples), not the
(320 + 320) · 2 = 1280 bytes the claim's 320-sample fill would give. -/
theorem process_gap_c4_cex :
    (processDatagramBytes frameThree (some frameOne)).map List.length = some 1920 ∧
    (1920 : Nat) ≠ (320 + 320) * URTP_SAMPLE_SIZE := by
  constructor
  · have hred := processTwoGapEq 1 0 0 (by decide) [7] (by decide)
      (List.replicate 320 2) (by rw [List.length_replicate]; rfl)
    rw [show frameThree = ⟨1 + 2, 0, some (List.replicate 320 2)⟩ from rfl,
        show frameOne = ⟨1, 0, some [7]⟩ from rfl, hred]
    simp only [Option.map_some', Option.some.injEq, List.length_append,
      length_flatten_replicate, samplesLeBytes_length, List.length_replicate]
    norm_num [int16LeBytes, SAMPLES_PER_BLOCK, SAMPLING_FREQUENCY, BLOCK_DURATION_MS]
  · decide

/-- Claim C4 as amended: when frame seq = s+2 arrives after frame seq = s
(one frame lost), exactly `2 * SAMPLES_PER_BLOCK` = 640 repeated samples
equal to the last sample of the previous frame are written before the new
frame's samples: the fill is `(seq − prevSeq) · SAMPLES_PER_BLOCK`, which
counts the current block as well as the lost one. -/
theorem process_gap_c4_fill (s ts pts : Nat) (hs : s + 2 < 65536)
    (prevAudio : List Int) (hp : prevAudio ≠ [])
    (audio : List Int) (ha : audio.length = SAMPLES_PER_BLOCK) :
    processDatagramBytes ⟨s + 2, ts, some audio⟩ (some ⟨s, pts, some prevAudio⟩)
      = some ((List.replicate (2 * SAMPLES_PER_BLOCK)
          (int16LeBytes (prevAudio.getLastD 0))).flatten ++ samplesLeBytes audio) :=
  processTwoGapEq s ts pts hs prevAudio hp audio ha

/-- Claim C4 witness: concrete instantiation of the amended theorem. -/
theorem process_gap_c4_fill_witness :
    processDatagramBytes ⟨3, 0, some (List.replicate 320 2)⟩ (some ⟨1, 0, some [7]⟩)
      = some ((List.replicate (2 * SAMPLES_PER_BLOCK)
          (int16LeBytes (([7] : List Int).getLastD 0))).flatten
          ++ samplesLeBytes (List.replicate 320 2)) :=
  process_gap_c4_fill 1 0 0 (by decide) [7] (by decide) (List.replicate 320 2)
    (by rw [List.length_replicate]; rfl)

/-- Claim C5 counterexample: a 14-byte UDP packet whose payload-length
field is 650 is accepted, although 650 exceeds the claimed bound of
`SAMPLES_PER_BLOCK * URTP_SAMPLE_SIZE` = 640 bytes. -/
theorem urtp_accept_c5_cex :
    udpAccepts pkt650 = true ∧ payloadLenField pkt650 = 650 ∧
    ¬(payloadLenField pkt650 ≤ SAMPLES_PER_BLOCK * URTP_SAMPLE_SIZE) := by decide

/-- Claim C5 as amended: every frame accepted from UDP has sync byte 0x5a,
a coding scheme below 2, and a payload-length field of at most
`URTP_DATAGRAM_MAX_SIZE` = 654 (not 640); likewise the TCP reassembler
only ever sits in the waiting-payload state with a remaining payload size
of at most 654 (one-step invariant of the byte loop). -/
theorem urtp_accept_c5_bounds :
    (∀ packet : List Nat, udpAccepts packet = true →
        packet.getD 0 0 = SYNC_BYTE ∧ packet.getD 1 0 < MAX_NUM_AUDIO_CODING_SCHEMES ∧
        payloadLenField packet ≤ URTP_DATAGRAM_MAX_SIZE) ∧
    (∀ (st : ReasmState) (header : List Nat) (item : Nat),
        (st.state = 5 → st.payloadSize ≤ URTP_DATAGRAM_MAX_SIZE) →
        ((callStep (st, header) item).1.state = 5 →
          (callStep (st, header) item).1.payloadSize ≤ URTP_DATAGRAM_MAX_SIZE)) := by
  constructor
  · intro packet h
    unfold udpAccepts verifyUrtpHeader at h
    rw [Bool.and_eq_true] at h
    obtain ⟨hL, hv⟩ := h
    split_ifs at hv with h1 h2 h3
    refine ⟨?_, ?_, ?_⟩
    · rw [← getD_take_eq packet URTP_HEADER_SIZE 0 (by norm_num [URTP_HEADER_SIZE])]
      exact h2
    · rw [← getD_take_eq packet URTP_HEADER_SIZE 1 (by norm_num [URTP_HEADER_SIZE])]
      exact h3
    · have hb := of_decide_eq_true hv
      unfold payloadLenField at hb ⊢
      rw [getD_take_eq packet URTP_HEADER_SIZE 12 (by norm_num [URTP_HEADER_SIZE]),
          getD_take_eq packet URTP_HEADER_SIZE 13 (by norm_num [URTP_HEADER_SIZE])] at hb
      exact hb
  · intro st header item hinv
    obtain ⟨s1, s2, s3, s4, s5⟩ := st
    rcases s1 with _ | _ | _ | _ | _ | _ | s1
    all_goals simp only [callStep]
    all_goals try split_ifs
    all_goals try simp_all
    all_goals omega

/-- Claim C5 witness: concrete instantiation of the amended theorem. -/
theorem urtp_accept_c5_bounds_witness :
    (pkt650.getD 0 0 = SYNC_BYTE ∧ pkt650.getD 1 0 < MAX_NUM_AUDIO_CODING_SCHEMES ∧
      payloadLenField pkt650 ≤ URTP_DATAGRAM_MAX_SIZE) ∧
    ((callStep (⟨5, 0, 10, [], []⟩, []) 7).1.state = 5 →
      (callStep (⟨5, 0, 10, [], []⟩, []) 7).1.payloadSize ≤ URTP_DATAGRAM_MAX_SIZE) :=
  ⟨urtp_accept_c5_bounds.1 pkt650 (by decide),
   urtp_accept_c5_bounds.2 ⟨5, 0, 10, [], []⟩ [] 7 (by decide)⟩

/-- Claim C6 counterexample: feeding the bytes of the valid frame `frame0`
to the reassembler one byte per call (a legal chunking) emits exactly one
frame, but its bytes are `[1, 0]` — the length byte and the payload — not
the bytes of `frame0`: the header accumulator is local to each
`handleUrtpStream` call, so header bytes from earlier calls are lost. -/
theorem reassembly_c6_cex :
    (feedCalls (frame0.map (fun b => [b]))).emitted = [[1, 0]] ∧
    [[1, 0]] ≠ [frame0] := by decide

/-- Claim C6 as amended: for every valid URTP frame with a non-zero payload
length, feeding its bytes to the reassembler in a single call from the
initial state emits exactly one frame whose bytes equal the frame's bytes.
(Chunked feeding can corrupt the frame because the header buffer is
call-local, and a zero-payload frame emits nothing.) -/
theorem reassembly_c6_single_call (coding seq ts : Nat) (payload : List Nat)
    (hc : coding < MAX_NUM_AUDIO_CODING_SCHEMES)
    (hlen : payload.length ≤ URTP_DATAGRAM_MAX_SIZE) (hpos : payload ≠ []) :
    (handleUrtpStreamCall initReasmState (frameBytes coding seq ts payload)).emitted
      = [frameBytes coding seq ts payload] := by
  have hn0 : ¬payload.length = 0 := by
    have := List.length_pos.mpr hpos
    omega
  unfold handleUrtpStreamCall frameBytes
  rw [List.foldl_append,
      reasm_header_phase coding seq ts payload.length hc hlen hn0,
      reasm_payload_phase payload
        ⟨5, 0, payload.length, urtpHeaderBytes coding seq ts payload.length, []⟩
        (urtpHeaderBytes coding seq ts payload.length) rfl rfl hpos]
  simp

/-- Claim C6 witness: concrete instantiation of the amended theorem. -/
theorem reassembly_c6_single_call_witness :
    (handleUrtpStreamCall initReasmState frame0).emitted = [frame0] :=
  reassembly_c6_single_call 0 0 0 [0] (by decide) (by decide) (by decide)

/-- Claim C7 counterexample: a gap of 1 sample (below the silly-gap bound,
where the claim says exactly 1 sample is written) with a previous datagram
whose audio pointer is nil makes `handleGap` dereference the nil pointer —
a runtime panic (`none`) — so no samples are written. -/
theorem handle_gap_c7_cex :
    handleGapBytes 1 (some nilAudioDatagram) = none ∧
    1 < SAMPLING_FREQUENCY * MAX_GAP_FILL_MILLISECONDS / 1000 := by decide

/-- Claim C7 as amended: provided the previous datagram (when present)
carries a non-nil audio pointer, `handleGap(n, prev)` writes zero bytes
when `n` is at least `SAMPLING_FREQUENCY·500/1000 = 8000` samples, and
otherwise writes exactly `n` samples, each equal to the last sample of
`prev` (zero when `prev` is absent or its audio is empty). -/
theorem handle_gap_c7_props (gap : Nat) (prev : Option UrtpDatagram)
    (hvalid : ∀ p, prev = some p → p.Audio ≠ none) :
    (SAMPLING_FREQUENCY * MAX_GAP_FILL_MILLISECONDS / 1000 ≤ gap →
        handleGapBytes gap prev = some []) ∧
    (gap < SAMPLING_FREQUENCY * MAX_GAP_FILL_MILLISECONDS / 1000 →
        handleGapBytes gap prev
          = some (samplesLeBytes (List.replicate gap (prevLastSample prev)))) := by
  constructor
  · intro h
    unfold handleGapBytes
    rw [if_neg (by omega)]
  · intro h
    unfold handleGapBytes
    rw [if_pos h]
    cases prev with
    | none =>
      simp only [prevLastSample, samplesLeBytes_replicate]
      exact congrArg some (zero_fill_eq_flatten gap)
    | some p =>
      cases hA : p.Audio with
      | none => exact absurd hA (hvalid p rfl)
      | some audio =>
        simp only [hA, prevLastSample, samplesLeBytes_replicate]
        by_cases hl : 0 < audio.length
        · rw [if_pos hl]
        · rw [if_neg hl]
          have haudio : audio = [] := by
            cases audio with
            | nil => rfl
            | cons a t => simp at hl
          subst haudio
          exact congrArg some (zero_fill_eq_flatten gap)

/-- Claim C7 witness: concrete instantiation of the amended theorem. -/
theorem handle_gap_c7_props_witness :
    handleGapBytes 9000 (some ⟨4, 0, some [5]⟩) = some [] ∧
    handleGapBytes 2 (some ⟨4, 0, some [5]⟩)
      = some (samplesLeBytes (List.replicate 2 (prevLastSample (some ⟨4, 0, some [5]⟩)))) :=
  ⟨(handle_gap_c7_props 9000 (some ⟨4, 0, some [5]⟩)
      (by intro p hp; cases hp; decide)).1 (by decide),
   (handle_gap_c7_props 2 (some ⟨4, 0, some [5]⟩)
      (by intro p hp; cases hp; decide)).2 (by decide)⟩

/-- Claim C8 (confirmed): sequence arithmetic is uint16, so a frame with
sequence number 0 following one with 65535 is in order: no gap fill is
written, only the frame's own samples. -/
theorem seq_wrap_c8_in_order (ts pts : Nat) (audio prevAudio : List Int)
    (ha : audio.length = SAMPLES_PER_BLOCK) :
    processDatagramBytes ⟨0, ts, some audio⟩ (some ⟨65535, pts, some prevAudio⟩)
      = some (samplesLeBytes audio) :=
  processInOrderEq ⟨0, ts, some audio⟩ ⟨65535, pts, some prevAudio⟩ audio rfl (by norm_num) ha

/-- Claim C8 witness: concrete instantiation. -/
theorem seq_wrap_c8_witness :
    processDatagramBytes ⟨0, 0, some (List.replicate 320 2)⟩ (some ⟨65535, 0, some [7]⟩)
      = some (samplesLeBytes (List.replicate 320 2)) :=
  seq_wrap_c8_in_order 0 0 (List.replicate 320 2) [7] (by rw [List.length_replicate]; rfl)

/-- Claim C9 (confirmed): decoding the big-endian byte image of any int16
sample list gives back the samples, and in general `decodePcm` returns
`len / 2` samples (trailing odd byte ignored). -/
theorem decode_pcm_c9_roundtrip :
    (∀ samples : List Int, (∀ v ∈ samples, -32768 ≤ v ∧ v ≤ 32767) →
        decodePcm (encodePcmBE samples) = samples) ∧
    (∀ bs : List Nat, (decodePcm bs).length = bs.length / 2) := by
  constructor
  · intro samples h
    induction samples with
    | nil => rfl
    | cons v rest ih =>
      have hv := h v (List.mem_cons_self v rest)
      have hrest : ∀ w ∈ rest, -32768 ≤ w ∧ w ≤ 32767 :=
        fun w hw => h w (List.mem_cons_of_mem v hw)
      unfold encodePcmBE at ih ⊢
      rw [List.map_cons, List.flatten_cons, List.cons_append, List.cons_append,
        List.nil_append]
      show decodePcm (byteOfInt (v / 256) :: byteOfInt v :: _) = _
      unfold decodePcm
      rw [ih hrest, decode_encode_sample v hv.1 hv.2]
  · exact decodePcm_length

/-- Claim C9 witness: concrete instantiation. -/
theorem decode_pcm_c9_witness :
    decodePcm (encodePcmBE [1, -1, -32768, 32767]) = [1, -1, -32768, 32767] ∧
    (decodePcm [0, 1, 2]).length = ([0, 1, 2] : List Nat).length / 2 :=
  ⟨decode_pcm_c9_roundtrip.1 [1, -1, -32768, 32767] (by decide),
   decode_pcm_c9_roundtrip.2 [0, 1, 2]⟩

/-- Claim C10 (confirmed): `clearMp3FileList` traverses `newDatagramList`,
not `mp3FileList`. When the new-datagram list is empty it deletes nothing
and leaves the whole state — in particular the MP3 file list — unchanged;
when it is non-empty, its elements are the datagrams the processor pushed,
and the type assertion to `*Mp3AudioFile` fails (runtime panic). -/
theorem clear_list_c10_traversal (st : OutState) :
    (st.newDatagramList = [] → clearMp3FileList st = some (st, [])) ∧
    (st.newDatagramList ≠ [] →
      (∀ v ∈ st.newDatagramList, ∃ d, v = ListValue.datagramValue d) →
      clearMp3FileList st = none) := by
  obtain ⟨ndl, mfl⟩ := st
  constructor
  · intro h
    subst h
    rfl
  · intro hne hall
    cases ndl with
    | nil => exact absurd rfl hne
    | cons v rest =>
      obtain ⟨d, hd⟩ := hall v (List.mem_cons_self v rest)
      subst hd
      rfl

/-- Claim C10 witness: concrete instantiation. -/
theorem clear_list_c10_witness :
    clearMp3FileList ⟨[], [segA]⟩ = some (⟨[], [segA]⟩, []) ∧
    clearMp3FileList ⟨[ListValue.datagramValue ⟨9, 0, none⟩], [segA]⟩ = none :=
  ⟨(clear_list_c10_traversal ⟨[], [segA]⟩).1 rfl,
   (clear_list_c10_traversal ⟨[ListValue.datagramValue ⟨9, 0, none⟩], [segA]⟩).2
      (by simp)
      (by intro v hv
          rw [List.mem_singleton] at hv
          exact ⟨⟨9, 0, none⟩, hv⟩)⟩

end IocServer
